import Mathlib

/-!
Verification development for the element-cache / cache-manager / resilient-resolver
subsystem of `browser-use-extension`.

Python dictionaries are modelled as association lists (`List (α × β)`): lookup
returns the value of the first matching key, insertion replaces in place (as a
`dict` assignment does) or appends, deletion removes the key.  Machine floats used
for timestamps and the validity ratio are modelled as `ℚ` (all the values the code
compares are small exact fractions).  Live-page calls (`query_selector`,
`page.evaluate`, strategy lookups) are modelled as explicit oracles, with a raised
exception folded into the "not found" outcome exactly as the `try/except` blocks do.
-/

/-- Lookup in a Python-dict modelled as an association list: value of the first
pair whose key matches, `none` when absent (`d.get(k)`). -/
def dlookup {α β : Type} [DecidableEq α] (k : α) : List (α × β) → Option β
  | [] => none
  | (k0, v) :: rest => if k0 = k then some v else dlookup k rest

/-- Key-membership test for the association-list dictionary (`k in d`). -/
def hasKey {α β : Type} [DecidableEq α] (k : α) (d : List (α × β)) : Bool :=
  d.any (fun p => decide (p.1 = k))

/-- One step of in-place replacement used by `dinsert`. -/
def replacePair {α β : Type} [DecidableEq α] (k : α) (v : β) (p : α × β) : α × β :=
  if p.1 = k then (k, v) else p

/-- Python `d[k] = v`: replace the value in place when the key is present,
otherwise append the new pair at the end (dicts preserve insertion order). -/
def dinsert {α β : Type} [DecidableEq α] (k : α) (v : β) (d : List (α × β)) :
    List (α × β) :=
  if hasKey k d then d.map (replacePair k v)
  else d ++ [(k, v)]

/-- Python `del d[k]`: remove every pair with the given key. -/
def derase {α β : Type} [DecidableEq α] (k : α) (d : List (α × β)) : List (α × β) :=
  d.filter (fun p => decide (p.1 ≠ k))

/-- The key list of a dictionary (`list(d.keys())`). -/
def keysOf {α β : Type} (d : List (α × β)) : List α :=
  d.map Prod.fst

theorem replacePair_self {α β : Type} [DecidableEq α] (k : α) (v : β) (k0 : α)
    (v0 : β) (h : k0 = k) : replacePair k v (k0, v0) = (k, v) := by
  simp [replacePair, h]

theorem replacePair_other {α β : Type} [DecidableEq α] (k : α) (v : β) (k0 : α)
    (v0 : β) (h : ¬ k0 = k) : replacePair k v (k0, v0) = (k0, v0) := by
  simp [replacePair, h]

theorem dlookup_isSome_of_hasKey {α β : Type} [DecidableEq α] (k : α)
    (d : List (α × β)) (h : hasKey k d = true) : (dlookup k d).isSome := by
  induction d with
  | nil => simp [hasKey] at h
  | cons p rest ih =>
    obtain ⟨k0, v0⟩ := p
    by_cases hk : k0 = k
    · subst hk
      simp [dlookup]
    · simp only [hasKey, List.any_cons, decide_eq_true_eq, Bool.or_eq_true] at h
      rcases h with h | h
      · exact absurd h hk
      · simp only [dlookup, if_neg hk]
        exact ih (by simpa [hasKey] using h)

theorem hasKey_of_dlookup_isSome {α β : Type} [DecidableEq α] (k : α)
    (d : List (α × β)) (h : (dlookup k d).isSome) : hasKey k d = true := by
  induction d with
  | nil => simp [dlookup] at h
  | cons p rest ih =>
    obtain ⟨k0, v0⟩ := p
    by_cases hk : k0 = k
    · simp [hasKey, hk]
    · simp only [dlookup, if_neg hk] at h
      simp only [hasKey, List.any_cons, decide_eq_true_eq, Bool.or_eq_true]
      exact Or.inr (by simpa [hasKey] using ih h)

theorem dlookup_map_replace_self {α β : Type} [DecidableEq α] (k : α) (v : β)
    (d : List (α × β)) (h : hasKey k d = true) :
    dlookup k (d.map (replacePair k v)) = some v := by
  induction d with
  | nil => simp [hasKey] at h
  | cons p rest ih =>
    obtain ⟨k0, v0⟩ := p
    by_cases h0 : k0 = k
    · rw [List.map_cons, replacePair_self k v k0 v0 h0]
      simp [dlookup]
    · simp only [hasKey, List.any_cons, decide_eq_true_eq, Bool.or_eq_true] at h
      rcases h with h | h
      · exact absurd h h0
      · rw [List.map_cons, replacePair_other k v k0 v0 h0]
        simp only [dlookup, if_neg h0]
        exact ih (by simpa [hasKey] using h)

theorem dlookup_map_replace_other {α β : Type} [DecidableEq α] (k k' : α) (v : β)
    (d : List (α × β)) (h : k' ≠ k) :
    dlookup k' (d.map (replacePair k v)) = dlookup k' d := by
  induction d with
  | nil => simp
  | cons p rest ih =>
    obtain ⟨k0, v0⟩ := p
    by_cases h0 : k0 = k
    · have hne : ¬ k = k' := fun hh => h hh.symm
      have hne2 : ¬ k0 = k' := fun hh => h (hh.symm.trans h0)
      rw [List.map_cons, replacePair_self k v k0 v0 h0]
      simp only [dlookup, if_neg hne, if_neg hne2]
      exact ih
    · rw [List.map_cons, replacePair_other k v k0 v0 h0]
      by_cases h1 : k0 = k'
      · simp [dlookup, h1]
      · simp only [dlookup, if_neg h1]
        exact ih

theorem dlookup_append_single_self {α β : Type} [DecidableEq α] (k : α) (v : β)
    (d : List (α × β)) (h : hasKey k d = false) :
    dlookup k (d ++ [(k, v)]) = some v := by
  induction d with
  | nil => simp [dlookup]
  | cons p rest ih =>
    obtain ⟨k0, v0⟩ := p
    simp only [hasKey, List.any_cons, Bool.or_eq_false_iff,
      decide_eq_false_iff_not] at h
    simp only [List.cons_append, dlookup, if_neg h.1]
    exact ih (by simp [hasKey, h.2])

theorem dlookup_append_single_other {α β : Type} [DecidableEq α] (k k' : α) (v : β)
    (d : List (α × β)) (h : k' ≠ k) :
    dlookup k' (d ++ [(k, v)]) = dlookup k' d := by
  induction d with
  | nil =>
    have hne : ¬ k = k' := fun hh => h hh.symm
    simp [dlookup, if_neg hne]
  | cons p rest ih =>
    obtain ⟨k0, v0⟩ := p
    simp only [List.cons_append, dlookup]
    by_cases h1 : k0 = k'
    · simp [h1]
    · simp only [if_neg h1]
      exact ih

theorem dlookup_dinsert {α β : Type} [DecidableEq α] (k k' : α) (v : β)
    (d : List (α × β)) :
    dlookup k' (dinsert k v d) = if k' = k then some v else dlookup k' d := by
  unfold dinsert
  by_cases hmem : hasKey k d = true
  · rw [if_pos hmem]
    by_cases h' : k' = k
    · subst h'
      rw [if_pos rfl]
      exact dlookup_map_replace_self k' v d hmem
    · rw [if_neg h']
      exact dlookup_map_replace_other k k' v d h'
  · rw [if_neg hmem]
    by_cases h' : k' = k
    · subst h'
      rw [if_pos rfl]
      exact dlookup_append_single_self k' v d (by simpa using hmem)
    · rw [if_neg h']
      exact dlookup_append_single_other k k' v d h'

theorem dlookup_derase {α β : Type} [DecidableEq α] (k k' : α) (d : List (α × β)) :
    dlookup k' (derase k d) = if k' = k then none else dlookup k' d := by
  induction d with
  | nil => simp [derase, dlookup]
  | cons p rest ih =>
    obtain ⟨k0, v0⟩ := p
    by_cases h0 : k0 = k
    · have hd : derase k ((k0, v0) :: rest) = derase k rest := by
        simp [derase, h0]
      rw [hd, ih]
      by_cases h' : k' = k
      · simp [h']
      · have h1 : ¬ k0 = k' := fun hh => h' (hh ▸ h0)
        simp [h', dlookup, if_neg h1]
    · have hd : derase k ((k0, v0) :: rest) = (k0, v0) :: derase k rest := by
        simp [derase, h0]
      rw [hd]
      simp only [dlookup]
      by_cases h1 : k0 = k'
      · have h' : ¬ k' = k := fun hh => h0 (h1.symm ▸ hh : k0 = k)
        simp [h1, h']
      · rw [if_neg h1, ih]
        simp [h1]

/-- Python substring test `pat in s` (on the character list). -/
def strContains (s pat : String) : Bool :=
  s.toList.tails.any (fun t => pat.toList.isPrefixOf t)

/-- Python `str.lower()`, character by character. -/
def strToLower (s : String) : String := String.mk (s.data.map Char.toLower)

/-- Lexicographic comparison of character lists: Python's `<` on strings. -/
def charListLt : List Char → List Char → Bool
  | [], [] => false
  | [], _ :: _ => true
  | _ :: _, [] => false
  | a :: as, b :: bs => if a < b then true else if b < a then false else charListLt as bs

/-- Python string `<`. -/
def strLt (a b : String) : Bool := charListLt a.data b.data

/-- Helper for `splitOnChar`, accumulating the current piece in reverse. -/
def splitOnCharAux (sep : Char) : List Char → List Char → List String
  | [], cur => [String.mk cur.reverse]
  | c :: rest, cur =>
    if c = sep then String.mk cur.reverse :: splitOnCharAux sep rest []
    else splitOnCharAux sep rest (c :: cur)

/-- Python `s.split(sep)` for a one-character separator (empty pieces kept). -/
def splitOnChar (sep : Char) (s : String) : List String := splitOnCharAux sep s.data []

/-- Python `sep.join(pieces)`. -/
def joinWith (sep : String) : List String → String
  | [] => ""
  | [x] => x
  | x :: y :: rest => x ++ sep ++ joinWith sep (y :: rest)

/-- Helper for `pySplitWs`, accumulating the current word in reverse. -/
def splitWsAux : List Char → List Char → List String
  | [], cur => if cur.isEmpty then [] else [String.mk cur.reverse]
  | c :: rest, cur =>
    if c.isWhitespace then
      if cur.isEmpty then splitWsAux rest []
      else String.mk cur.reverse :: splitWsAux rest []
    else splitWsAux rest (c :: cur)

/-- Python `s.split()` with no argument: split on whitespace runs, no empties. -/
def pySplitWs (s : String) : List String := splitWsAux s.data []

/-- Python `value.replace('"', '\\"')` as used when synthesizing selectors. -/
def escapeQuotes (s : String) : String :=
  String.mk (s.data.flatMap (fun c => if c = '"' then ['\\', '"'] else [c]))

/-- Python `' '.join(s.split())`: collapse runs of whitespace to single spaces and
trim the ends, as the exact-match branch of `find_by_text` does. -/
def normWs (s : String) : String :=
  joinWith " " (pySplitWs s)

/-! ## Element cache (`element_cache.py`) -/

/-- Lexicographic order on `(key, value)` pairs, matching what Python's
`sorted(params.items())` uses on string tuples (`a ≤ b` iff `¬ b < a`). -/
def pairLE (a b : String × String) : Prop :=
  strLt a.1 b.1 = true ∨ (a.1 = b.1 ∧ strLt b.2 a.2 = false)

instance : DecidableRel pairLE := fun a b => by
  unfold pairLE
  infer_instance

/-- The sorted parameter list produced inside `ElementCache._generate_cache_key`
(any sort implements Python's `sorted` here: the result is the unique
`pairLE`-sorted permutation). -/
def sortedParams (params : List (String × String)) : List (String × String) :=
  params.insertionSort pairLE

/-- `ElementCache._generate_cache_key`: the URL alone when there are no params,
otherwise `url?k1=v1&k2=v2&...` with the pairs sorted. -/
def generate_cache_key (url : String) (params : List (String × String)) : String :=
  if params.isEmpty then url
  else
    url ++ "?" ++
      joinWith "&" ((sortedParams params).map (fun kv => kv.1 ++ "=" ++ kv.2))

/-- One step of `CacheManager._extract_url_params`: a `k=v` piece is split at the
first `=` and assigned into the dict; a piece with no `=` is skipped. -/
def parse_query_param (acc : List (String × String)) (piece : String) :
    List (String × String) :=
  if strContains piece "=" then
    match splitOnChar '=' piece with
    | [] => acc
    | k :: rest => dinsert k (joinWith "=" rest) acc
  else acc

/-- `CacheManager._extract_url_params`: empty when the URL has no `?`, otherwise
the query string (everything after the first `?`) split on `&`. -/
def extract_url_params (url : String) : List (String × String) :=
  if strContains url "?" then
    match splitOnChar '?' url with
    | [] => []
    | _ :: rest => (splitOnChar '&' (joinWith "?" rest)).foldl parse_query_param []
  else []

/-- One cached element record, with exactly the fields the cache manager reads
through `.get(...)`: absent dict keys are `none` / the empty attribute map. -/
structure ElementData where
  xpath : Option String
  tag_name : Option String
  is_interactive : Option Bool
  attributes : List (String × String)
deriving DecidableEq, Repr

/-- An `ElementSet`: Python dict from element handle to record. -/
abbrev EDict := List (String × ElementData)

/-- The attribute subset compared by `CacheManager._is_element_modified`. -/
def important_attrs : List String := ["id", "class", "name", "type"]

/-- `CacheManager._is_element_modified`: first the keys `xpath`, `tag_name`,
`is_interactive` in order, then the attributes `id`, `class`, `name`, `type`. -/
def is_element_modified (old_element new_element : ElementData) : Bool :=
  if old_element.xpath ≠ new_element.xpath then true
  else if old_element.tag_name ≠ new_element.tag_name then true
  else if old_element.is_interactive ≠ new_element.is_interactive then true
  else important_attrs.any (fun a =>
    decide (dlookup a old_element.attributes ≠ dlookup a new_element.attributes))

/-- `CacheManager._compute_diff`, returned as `(added, modified, removed)` in the
order the Python function returns them. -/
def compute_diff (old_elements new_elements : EDict) :
    List String × List String × List String :=
  let old_keys := keysOf old_elements
  let new_keys := keysOf new_elements
  let added := new_keys.filter (fun k => ! hasKey k old_elements)
  let removed := old_keys.filter (fun k => ! hasKey k new_elements)
  let modified := old_keys.filter (fun k =>
    match dlookup k old_elements, dlookup k new_elements with
    | some o, some n => is_element_modified o n
    | _, _ => false)
  (added, modified, removed)

/-- `updated_cache[index] = current_elements[index]` for one index (the lookup in
the source never fails because the index comes from the fresh key set). -/
def overwriteFrom (src : EDict) (d : EDict) (k : String) : EDict :=
  match dlookup k src with
  | some v => dinsert k v d
  | none => d

/-- The merge loop of `CacheManager.update_cache_with_diff`: copy the cached set,
overwrite added then modified indices from the fresh set, delete removed ones. -/
def merge_diff (cached fresh : EDict) : EDict :=
  let diff := compute_diff cached fresh
  let u1 := diff.1.foldl (overwriteFrom fresh) cached
  let u2 := diff.2.1.foldl (overwriteFrom fresh) u1
  diff.2.2.foldl (fun d k => derase k d) u2

/-- Sample size used by the validator (`self.validation_sample_size = 3`). -/
def validation_sample_size : Nat := 3

/-- Cache TTL in seconds (`self.cache_ttl = 24 * 60 * 60`). -/
def cache_ttl : ℚ := 24 * 60 * 60

/-- `CacheManager._select_validation_samples`: all keys when there are at most
`validation_sample_size` of them, otherwise the first `validation_sample_size`. -/
def select_validation_samples (cached : EDict) : List String :=
  let indices := keysOf cached
  if indices.length ≤ validation_sample_size then indices
  else indices.take validation_sample_size

/-- One attribute clause of `CacheManager._create_selector_from_cache`: append
`[attr="value"]` when the attribute is present and non-empty. -/
def attr_selector_piece (attrs : List (String × String)) (sel : String) (a : String) :
    String :=
  match dlookup a attrs with
  | some v =>
    if v ≠ "" then sel ++ "[" ++ a ++ "=\"" ++ escapeQuotes v ++ "\"]"
    else sel
  | none => sel

/-- The non-id fallback of `_create_selector_from_cache`: tag name, then the
`name`/`type`/`role`/`aria-label` clauses, then the first class if any. -/
def create_selector_fallback (ed : ElementData) : String :=
  let tag := ed.tag_name.getD "*"
  let sel := ["name", "type", "role", "aria-label"].foldl
    (attr_selector_piece ed.attributes) tag
  match dlookup "class" ed.attributes with
  | some cls =>
    if cls ≠ "" then
      match pySplitWs cls with
      | [] => sel
      | c0 :: _ => sel ++ "." ++ c0
    else sel
  | none => sel

/-- `CacheManager._create_selector_from_cache`: `#id` when a non-empty id
attribute exists, else the synthesized fallback selector. -/
def create_selector_from_cache (ed : ElementData) : String :=
  match dlookup "id" ed.attributes with
  | some idv => if idv ≠ "" then "#" ++ idv else create_selector_fallback ed
  | none => create_selector_fallback ed

/-- Whether one sampled record resolves live: build its selector and ask the page
oracle (`page.query_selector`); a lookup exception counts as invalid, which the
Boolean oracle already expresses. -/
def sample_is_valid (cached : EDict) (page : String → Bool) (i : String) : Bool :=
  match dlookup i cached with
  | some ed => page (create_selector_from_cache ed)
  | none => false

/-- The `valid_count` accumulated by `CacheManager.validate_cache`. -/
def valid_count (cached : EDict) (page : String → Bool) : Nat :=
  ((select_validation_samples cached).filter (sample_is_valid cached page)).length

/-- `validity_ratio = valid_count / len(sample_indices) if sample_indices else 0`. -/
def validity_fraction (cached : EDict) (page : String → Bool) : ℚ :=
  let samples := select_validation_samples cached
  if samples.isEmpty then 0
  else (valid_count cached page : ℚ) / (samples.length : ℚ)

/-- The policy constant `0.7` of `validate_cache`. -/
def validation_threshold : ℚ := 7 / 10

/-- `CacheManager.validate_cache`: true iff the validity ratio reaches the 70%
threshold (the comparison in the source is `>=`). -/
def validate_cache (cached : EDict) (page : String → Bool) : Bool :=
  decide (validation_threshold ≤ validity_fraction cached page)

/-- Index-record metadata kept per cache key (`self.metadata[cache_key]`). -/
structure CacheMeta where
  url : String
  timestamp : ℚ
  element_count : Nat
  version : Nat
deriving DecidableEq, Repr

/-- The two cache tiers: the in-memory dict `self.cache`, the metadata index, and
the durable per-key files.  A `none` file value models a malformed/corrupt
persisted record (one whose `json.load` raises). -/
structure CacheState where
  mem : List (String × EDict)
  metadata : List (String × CacheMeta)
  fileStore : List (String × Option EDict)
deriving DecidableEq, Repr

/-- `ElementCache.store_elements`: write the memory tier, bump the version in the
metadata index (previous version or 0, plus 1) with a fresh timestamp, and write
the durable record. -/
def store_elements (st : CacheState) (url : String) (elements : EDict)
    (params : List (String × String)) (now : ℚ) : CacheState :=
  let key := generate_cache_key url params
  let prev_version :=
    match dlookup key st.metadata with
    | some m => m.version
    | none => 0
  { mem := dinsert key elements st.mem,
    metadata := dinsert key ⟨url, now, elements.length, prev_version + 1⟩ st.metadata,
    fileStore := dinsert key (some elements) st.fileStore }

/-- `ElementCache.get_elements`: memory tier first; on miss load the durable
record and populate the memory tier; a missing key or a corrupt record yields the
empty set (the `except` branch falls through to `return {}` without populating
the memory tier). -/
def get_elements (st : CacheState) (url : String) (params : List (String × String)) :
    EDict × CacheState :=
  let key := generate_cache_key url params
  match dlookup key st.mem with
  | some elems => (elems, st)
  | none =>
    match dlookup key st.fileStore with
    | some (some elems) => (elems, { st with mem := dinsert key elems st.mem })
    | some none => ([], st)
    | none => ([], st)

/-- `ElementCache.get_cache_info` (the `{}` default mapped to `none`). -/
def get_cache_info (st : CacheState) (url : String)
    (params : List (String × String)) : Option CacheMeta :=
  dlookup (generate_cache_key url params) st.metadata

/-- `CacheManager._should_refresh_cache`: refresh when there is no metadata entry
or when the entry is older than the TTL (strict `>`). -/
def should_refresh_cache (st : CacheState) (url : String)
    (params : List (String × String)) (now : ℚ) : Bool :=
  match get_cache_info st url params with
  | none => true
  | some m => decide (now - m.timestamp > cache_ttl)

/-- The manager's external collaborators: the clock, the browser's current URL,
the snapshot source (`_fetch_fresh_elements`) and the live-page selector oracle
used by the validator. -/
structure ManagerEnv where
  now : ℚ
  currentUrl : String
  fresh : EDict
  page : String → Bool

/-- `CacheManager.update_cache_with_diff`: fetch the fresh snapshot, diff-merge it
into the cached set, persist the merged set (keyed by the `url` argument and its
own extracted params) and return it. -/
def update_cache_with_diff (env : ManagerEnv) (st : CacheState) (url : String)
    (cached : EDict) : EDict × CacheState :=
  let updated := merge_diff cached env.fresh
  (updated, store_elements st url updated (extract_url_params url) env.now)

/-- `CacheManager.get_elements_with_cache`: forced/TTL refresh, else cached set;
empty cache refetches; a validated cache is returned unchanged; a cache failing
validation is diff-merged. -/
def get_elements_with_cache (env : ManagerEnv) (url : String) (force_refresh : Bool)
    (st : CacheState) : EDict × CacheState :=
  let params := extract_url_params env.currentUrl
  if force_refresh || should_refresh_cache st url params env.now then
    (env.fresh, store_elements st url env.fresh params env.now)
  else
    let res := get_elements st url params
    if res.1.isEmpty then
      (env.fresh, store_elements res.2 url env.fresh params env.now)
    else if validate_cache res.1 env.page then res
    else update_cache_with_diff env res.2 url res.1

/-! ## Resilient resolver (`ui_enhanced_actions.py`) -/

/-- One element of the `dom_state.selector_map`, with the capabilities the
strategies probe: the explicit hidden flag, the attribute dict, the tag, the
extracted text (`get_all_text_till_next_clickable_element`) and the xpath. -/
structure DomElement where
  is_hidden : Bool
  attributes : List (String × String)
  tag_name : String
  text : String
  xpath : String
deriving DecidableEq, Repr

/-- `ElementHelper.is_hidden`: the explicit flag, else inline style containing
`display: none` or `visibility: hidden` (lower-cased), else a present `hidden`
attribute. -/
def ElementHelper.is_hidden (e : DomElement) : Bool :=
  if e.is_hidden then true
  else
    let style := strToLower ((dlookup "style" e.attributes).getD "")
    if strContains style "display: none" || strContains style "visibility: hidden" then
      true
    else if (dlookup "hidden" e.attributes).isSome then true
    else false

/-- The text comparison of `find_by_text`: whitespace-normalized equality in exact
mode, case-insensitive substring containment in fuzzy mode. -/
def text_matches (search : String) (exact : Bool) (element_text : String) : Bool :=
  if exact then decide (normWs element_text = normWs search)
  else strContains (strToLower element_text) (strToLower search)

/-- One pass of `ElementHelper.find_by_text` over the selector map: skip hidden
elements and tag mismatches, return the first index whose text matches. -/
def find_by_text_scan (search : String) (exact : Bool) (tag : String) :
    List (Int × DomElement) → Option Int
  | [] => none
  | (i, e) :: rest =>
    if ElementHelper.is_hidden e then find_by_text_scan search exact tag rest
    else if tag ≠ "" ∧ strToLower e.tag_name ≠ strToLower tag then
      find_by_text_scan search exact tag rest
    else if text_matches search exact e.text then some i
    else find_by_text_scan search exact tag rest

/-- `ElementHelper.find_by_text`: the timeout loop repeats the scan over fresh
snapshots (one list entry per iteration) until a match; `none` on timeout. -/
def find_by_text (snapshots : List (List (Int × DomElement))) (search : String)
    (exact : Bool) (tag : String) : Option Int :=
  match snapshots with
  | [] => none
  | dom :: rest =>
    match find_by_text_scan search exact tag dom with
    | some i => some i
    | none => find_by_text rest search exact tag

/-- One pass of `ElementHelper.find_by_role`: skip hidden elements and role
mismatches; when a name is given it must be contained (case-insensitively) in the
element's text. -/
def find_by_role_scan (role name : String) : List (Int × DomElement) → Option Int
  | [] => none
  | (i, e) :: rest =>
    if ElementHelper.is_hidden e then find_by_role_scan role name rest
    else if strToLower ((dlookup "role" e.attributes).getD "") ≠ strToLower role then
      find_by_role_scan role name rest
    else if name ≠ "" ∧ strContains (strToLower e.text) (strToLower name) = false then
      find_by_role_scan role name rest
    else some i

/-- `ElementHelper.find_by_role`: the timeout loop around the scan. -/
def find_by_role (snapshots : List (List (Int × DomElement))) (role name : String) :
    Option Int :=
  match snapshots with
  | [] => none
  | dom :: rest =>
    match find_by_role_scan role name dom with
    | some i => some i
    | none => find_by_role rest role name

/-- The selector-map sweep of `ElementHelper.find_by_selector`: the first index
whose element has the xpath computed in the page. -/
def find_by_selector_scan (xpath : String) : List (Int × DomElement) → Option Int
  | [] => none
  | (i, e) :: rest => if e.xpath = xpath then some i else find_by_selector_scan xpath rest

/-- One iteration of `ElementHelper.find_by_selector`: the page oracle answers the
`document.querySelector` probe with the matched element's xpath (or `none` when
the selector matches nothing / the evaluation fails), and the selector map is
swept for that xpath.  No hidden-element check appears in the source. -/
def find_by_selector_once (query : String → Option String)
    (dom : List (Int × DomElement)) (selector : String) : Option Int :=
  match query selector with
  | some xp => find_by_selector_scan xp dom
  | none => none

/-- `ElementHelper.find_by_selector`: the timeout loop around the single
iteration, one `(query, dom)` pair per iteration. -/
def find_by_selector
    (rounds : List ((String → Option String) × List (Int × DomElement)))
    (selector : String) : Option Int :=
  match rounds with
  | [] => none
  | (query, dom) :: rest =>
    match find_by_selector_once query dom selector with
    | some i => some i
    | none => find_by_selector rest selector

/-- The strategy tags of `resilient_locate`, in the order the strategy list is
built. -/
inductive Strategy where
  | selector : Strategy
  | role : Strategy
  | text : Strategy
deriving DecidableEq, Repr

/-- The parameters `resilient_locate` extracts from its params dict (each `.get`
default is the empty string / `None` / `False`). -/
structure LocateParams where
  selector : String
  text : String
  role : String
  name : String
  tag : String
  index : Option Int
  exact : Bool

/-- The strategy list built by `resilient_locate`: selector if provided, then
role, then text. -/
def strategiesOf (p : LocateParams) : List Strategy :=
  (if p.selector ≠ "" then [Strategy.selector] else []) ++
    (if p.role ≠ "" then [Strategy.role] else []) ++
      (if p.text ≠ "" then [Strategy.text] else [])

/-- The resolver's collaborators: `getElement i` is whether the explicit index is
currently resolvable (`ElementHelper.get_element` returns an element), and
`run round s` is the outcome of invoking strategy `s` during attempt `round`
(a raised exception is logged and treated as no result, hence also `none`). -/
structure LocateEnv where
  getElement : Int → Bool
  run : Nat → Strategy → Option Int

/-- The inner `for strategy in strategies` loop: invoke each strategy in order
until one returns an index, recording the invocations made. -/
def try_strategies (env : LocateEnv) (round : Nat) :
    List Strategy → Option Int × List (Nat × Strategy)
  | [] => (none, [])
  | s :: rest =>
    match env.run round s with
    | some k => (some k, [(round, s)])
    | none =>
      let r := try_strategies env round rest
      (r.1, (round, s) :: r.2)

/-- The outer `for attempt in range(max_attempts)` loop: run the strategy list
each round, sleeping the fixed backoff between rounds (`asyncio.sleep(1)` when
`attempt < max_attempts - 1`); the third component counts those sleeps. -/
def locate_rounds (env : LocateEnv) (strats : List Strategy) :
    List Nat → Option Int × List (Nat × Strategy) × Nat
  | [] => (none, [], 0)
  | r :: rest =>
    let one := try_strategies env r strats
    match one.1 with
    | some k => (some k, one.2, 0)
    | none =>
      let cont := locate_rounds env strats rest
      (cont.1, one.2 ++ cont.2.1, (if rest.isEmpty then 0 else 1) + cont.2.2)

/-- `ElementHelper.resilient_locate`: a resolvable explicit index returns
immediately with no strategy invocation; otherwise the strategy list runs for at
most `max_attempts` rounds.  The result also carries the chronological list of
strategy invocations and the number of inter-round sleeps. -/
def resilient_locate (env : LocateEnv) (p : LocateParams) (max_attempts : Nat) :
    Option Int × List (Nat × Strategy) × Nat :=
  let body :=
    if (strategiesOf p).isEmpty then
      ((none : Option Int), ([] : List (Nat × Strategy)), 0)
    else locate_rounds env (strategiesOf p) (List.range max_attempts)
  match p.index with
  | some i => if env.getElement i then (some i, [], 0) else body
  | none => body

/-- The full attempt schedule: every round crossed with the strategy list, in
order. -/
def locate_schedule (p : LocateParams) (m : Nat) : List (Nat × Strategy) :=
  (List.range m).flatMap (fun r => (strategiesOf p).map (fun s => (r, s)))

/-- Truncation of a schedule at (and including) its first successful invocation. -/
def trace_spec (env : LocateEnv) : List (Nat × Strategy) → List (Nat × Strategy)
  | [] => []
  | (r, s) :: rest =>
    if (env.run r s).isSome then [(r, s)] else (r, s) :: trace_spec env rest

/-- The first successful outcome along a schedule. -/
def result_spec (env : LocateEnv) : List (Nat × Strategy) → Option Int
  | [] => none
  | (r, s) :: rest =>
    match env.run r s with
    | some k => some k
    | none => result_spec env rest

theorem try_strategies_eq (env : LocateEnv) (r : Nat) (strats : List Strategy) :
    try_strategies env r strats =
      (result_spec env (strats.map (fun s => (r, s))),
        trace_spec env (strats.map (fun s => (r, s)))) := by
  induction strats with
  | nil => rfl
  | cons s rest ih =>
    simp only [try_strategies, List.map_cons, result_spec, trace_spec]
    cases h : env.run r s with
    | some k => simp [h]
    | none => simp [h, ih]

theorem result_spec_append (env : LocateEnv) (xs ys : List (Nat × Strategy)) :
    result_spec env (xs ++ ys) =
      match result_spec env xs with
      | some k => some k
      | none => result_spec env ys := by
  induction xs with
  | nil => rfl
  | cons q rest ih =>
    obtain ⟨r, s⟩ := q
    simp only [List.cons_append, result_spec]
    cases h : env.run r s with
    | some k => rfl
    | none => simpa using ih

theorem trace_spec_append (env : LocateEnv) (xs ys : List (Nat × Strategy)) :
    trace_spec env (xs ++ ys) =
      if (result_spec env xs).isSome then trace_spec env xs
      else trace_spec env xs ++ trace_spec env ys := by
  induction xs with
  | nil => simp [trace_spec, result_spec]
  | cons q rest ih =>
    obtain ⟨r, s⟩ := q
    simp only [List.cons_append, trace_spec, result_spec]
    cases h : env.run r s with
    | some k => simp [h]
    | none =>
      simp [h, ih]
      split <;> rfl

theorem locate_rounds_eq (env : LocateEnv) (strats : List Strategy)
    (rs : List Nat) :
    (locate_rounds env strats rs).1 =
        result_spec env (rs.flatMap (fun r => strats.map (fun s => (r, s)))) ∧
      (locate_rounds env strats rs).2.1 =
        trace_spec env (rs.flatMap (fun r => strats.map (fun s => (r, s)))) := by
  induction rs with
  | nil => exact ⟨rfl, rfl⟩
  | cons r rest ih =>
    simp only [locate_rounds, try_strategies_eq, List.flatMap_cons,
      result_spec_append, trace_spec_append]
    cases h : result_spec env (strats.map (fun s => (r, s))) with
    | some k => simp [h]
    | none => simp [h, ih.1, ih.2]

/-- Failure of the explicit-index fast path: no index given, or the index does not
resolve to a live element. -/
def index_path_misses (env : LocateEnv) (p : LocateParams) : Prop :=
  p.index = none ∨ ∃ i, p.index = some i ∧ env.getElement i = false

theorem resilient_locate_of_index_miss (env : LocateEnv) (p : LocateParams)
    (m : Nat) (h : index_path_misses env p) :
    resilient_locate env p m =
      if (strategiesOf p).isEmpty then (none, [], 0)
      else locate_rounds env (strategiesOf p) (List.range m) := by
  rcases h with h | ⟨i, hi, hg⟩
  · simp [resilient_locate, h]
  · simp [resilient_locate, hi, hg]

theorem resilient_locate_char (env : LocateEnv) (p : LocateParams) (m : Nat)
    (h : index_path_misses env p) :
    (resilient_locate env p m).1 = result_spec env (locate_schedule p m) ∧
      (resilient_locate env p m).2.1 = trace_spec env (locate_schedule p m) := by
  rw [resilient_locate_of_index_miss env p m h]
  by_cases he : (strategiesOf p).isEmpty
  · have hnil : strategiesOf p = [] := by simpa [List.isEmpty_iff] using he
    have hsched : locate_schedule p m = [] := by
      simp [locate_schedule, hnil]
    simp [he, hsched, result_spec, trace_spec]
  · simp only [he, if_false, Bool.false_eq_true]
    exact locate_rounds_eq env (strategiesOf p) (List.range m)

theorem try_strategies_all_none (env : LocateEnv) (r : Nat)
    (strats : List Strategy) (h : ∀ s ∈ strats, env.run r s = none) :
    try_strategies env r strats = (none, strats.map (fun s => (r, s))) := by
  induction strats with
  | nil => rfl
  | cons s rest ih =>
    have hs : env.run r s = none := h s (List.mem_cons_self s rest)
    simp only [try_strategies, hs, List.map_cons]
    rw [ih (fun s' hs' => h s' (List.mem_cons_of_mem s hs'))]

theorem locate_rounds_all_none (env : LocateEnv) (strats : List Strategy)
    (rs : List Nat) (h : ∀ r ∈ rs, ∀ s ∈ strats, env.run r s = none) :
    locate_rounds env strats rs =
      (none, rs.flatMap (fun r => strats.map (fun s => (r, s))), rs.length - 1) := by
  induction rs with
  | nil => rfl
  | cons r rest ih =>
    have hr : try_strategies env r strats = (none, strats.map (fun s => (r, s))) :=
      try_strategies_all_none env r strats (h r (List.mem_cons_self r rest))
    have hrec := ih (fun r' hr' s hs => h r' (List.mem_cons_of_mem r hr') s hs)
    simp only [locate_rounds, hr, hrec, List.flatMap_cons]
    cases rest with
    | nil => simp
    | cons r2 rest2 => simp [Nat.succ_sub_one, Nat.add_comm]

theorem sum_map_const_length {α : Type} (l : List α) (c : Nat) :
    (l.map (fun _ => c)).sum = l.length * c := by
  induction l with
  | nil => simp
  | cons a rest ih => simp [ih, Nat.succ_mul, Nat.add_comm]

theorem locate_schedule_length (p : LocateParams) (m : Nat) :
    (locate_schedule p m).length = m * (strategiesOf p).length := by
  simp only [locate_schedule, List.length_flatMap, Function.comp_def, List.length_map]
  rw [sum_map_const_length]
  simp [List.length_range]

/-- C4: a description carrying an explicit, currently-resolvable index returns
that index immediately with no strategy invocation; otherwise the invocation
trace is the per-round schedule of the strategies present in the description —
selector, then role, then text — truncated at the first success, and in
particular a description with both a selector and a text (and no role) whose
selector strategy fails in the first round while its text strategy succeeds is
resolved via text only after the selector strategy was attempted first. -/
theorem resilient_locate_strategy_order (env : LocateEnv) (p : LocateParams)
    (m : Nat) :
    (∀ i, p.index = some i → env.getElement i = true →
      resilient_locate env p m = (some i, [], 0)) ∧
    (index_path_misses env p →
      (resilient_locate env p m).1 = result_spec env (locate_schedule p m) ∧
      (resilient_locate env p m).2.1 = trace_spec env (locate_schedule p m)) ∧
    (index_path_misses env p → p.selector ≠ "" → p.role = "" → p.text ≠ "" →
      0 < m → env.run 0 Strategy.selector = none →
      ∀ k, env.run 0 Strategy.text = some k →
      (resilient_locate env p m).1 = some k ∧
      (resilient_locate env p m).2.1 = [(0, Strategy.selector), (0, Strategy.text)]) := by
  refine ⟨fun i hi hg => ?_, resilient_locate_char env p m, ?_⟩
  · simp [resilient_locate, hi, hg]
  · intro hmiss hsel hrole htext hm h0sel k h0text
    obtain ⟨m', rfl⟩ : ∃ m', m = m' + 1 :=
      ⟨m - 1, (Nat.succ_pred_eq_of_pos hm).symm⟩
    have hstr : strategiesOf p = [Strategy.selector, Strategy.text] := by
      simp [strategiesOf, hsel, hrole, htext]
    have hsched : locate_schedule p (m' + 1) =
        (0, Strategy.selector) :: (0, Strategy.text) ::
          ((List.range m').map Nat.succ).flatMap
            (fun r => (strategiesOf p).map (fun s => (r, s))) := by
      simp [locate_schedule, List.range_succ_eq_map, hstr]
    have hchar := resilient_locate_char env p (m' + 1) hmiss
    rw [hchar.1, hchar.2, hsched]
    constructor
    · simp [result_spec, h0sel, h0text]
    · simp [trace_spec, h0sel, h0text]

/-- Concrete resolver environment for the ordering witness: index 7 resolves,
every strategy fails except the text strategy in round 0. -/
def c4_env : LocateEnv :=
  ⟨fun i => decide (i = 7),
    fun r s =>
      match r, s with
      | 0, Strategy.text => some 5
      | _, _ => none⟩

/-- Description with both a selector and a text, no role, no index. -/
def c4_params : LocateParams := ⟨"div.x", "OK", "", "", "", none, false⟩

/-- The same description with explicit index 7. -/
def c4_params_idx : LocateParams := ⟨"div.x", "OK", "", "", "", some 7, false⟩

theorem resilient_locate_strategy_order_witness :
    resilient_locate c4_env c4_params_idx 3 = (some 7, [], 0) ∧
    (resilient_locate c4_env c4_params 3).1 = some 5 ∧
    (resilient_locate c4_env c4_params 3).2.1 =
      [(0, Strategy.selector), (0, Strategy.text)] := by
  refine ⟨(resilient_locate_strategy_order c4_env c4_params_idx 3).1 7 rfl
    (by decide), ?_⟩
  exact (resilient_locate_strategy_order c4_env c4_params 3).2.2 (Or.inl rfl)
    (by decide) rfl (by decide) (by decide) rfl 5 rfl

/-- C9: when the fast path misses, at least one strategy is present and every
strategy invocation in every round fails, the resolver returns `none` having
attempted exactly the full schedule — `max_attempts * strategyCount` invocations
— with `max_attempts - 1` fixed-backoff sleeps between rounds. -/
theorem resilient_locate_exhaustion (env : LocateEnv) (p : LocateParams) (m : Nat)
    (hmiss : index_path_misses env p) (hne : strategiesOf p ≠ [])
    (hall : ∀ r, r < m → ∀ s ∈ strategiesOf p, env.run r s = none) :
    resilient_locate env p m = (none, locate_schedule p m, m - 1) ∧
    (locate_schedule p m).length = m * (strategiesOf p).length := by
  constructor
  · rw [resilient_locate_of_index_miss env p m hmiss]
    have he : (strategiesOf p).isEmpty = false := by
      cases hs : strategiesOf p with
      | nil => exact absurd hs hne
      | cons a l => rfl
    simp only [he, Bool.false_eq_true, if_false]
    rw [locate_rounds_all_none env (strategiesOf p) (List.range m)
      (fun r hr s hs => hall r (List.mem_range.mp hr) s hs)]
    simp [locate_schedule, List.length_range]
  · exact locate_schedule_length p m

/-- Resolver environment where nothing ever resolves. -/
def c9_env : LocateEnv := ⟨fun _ => false, fun _ _ => none⟩

/-- Description with a selector and a text (two strategies), no index. -/
def c9_params : LocateParams := ⟨"div.y", "Go", "", "", "", none, false⟩

theorem resilient_locate_exhaustion_witness :
    resilient_locate c9_env c9_params 3 = (none, locate_schedule c9_params 3, 2) ∧
    (locate_schedule c9_params 3).length = 3 * 2 := by
  have h := resilient_locate_exhaustion c9_env c9_params 3 (Or.inl rfl)
    (by decide) (fun r hr s hs => rfl)
  refine ⟨h.1, ?_⟩
  rw [h.2]
  decide

theorem find_by_text_scan_mem (search : String) (exact : Bool) (tag : String)
    (dom : List (Int × DomElement)) (i : Int)
    (h : find_by_text_scan search exact tag dom = some i) :
    ∃ e, (i, e) ∈ dom ∧ ElementHelper.is_hidden e = false ∧
      text_matches search exact e.text = true := by
  induction dom with
  | nil => simp [find_by_text_scan] at h
  | cons p rest ih =>
    obtain ⟨j, e⟩ := p
    rw [find_by_text_scan] at h
    split_ifs at h with h1 h2 h3
    · rcases ih h with ⟨e', hmem, hh, hm⟩
      exact ⟨e', List.mem_cons_of_mem _ hmem, hh, hm⟩
    · rcases ih h with ⟨e', hmem, hh, hm⟩
      exact ⟨e', List.mem_cons_of_mem _ hmem, hh, hm⟩
    · obtain rfl : j = i := Option.some.inj h
      exact ⟨e, List.mem_cons_self _ _, by simpa using h1, h3⟩
    · rcases ih h with ⟨e', hmem, hh, hm⟩
      exact ⟨e', List.mem_cons_of_mem _ hmem, hh, hm⟩

theorem find_by_text_not_hidden (snapshots : List (List (Int × DomElement)))
    (search : String) (exact : Bool) (tag : String) (i : Int)
    (h : find_by_text snapshots search exact tag = some i) :
    ∃ dom, dom ∈ snapshots ∧ ∃ e, (i, e) ∈ dom ∧
      ElementHelper.is_hidden e = false := by
  induction snapshots with
  | nil => simp [find_by_text] at h
  | cons dom rest ih =>
    rw [find_by_text] at h
    cases hs : find_by_text_scan search exact tag dom with
    | some j =>
      rw [hs] at h
      obtain rfl : j = i := Option.some.inj h
      rcases find_by_text_scan_mem search exact tag dom j hs with ⟨e, hmem, hh, _⟩
      exact ⟨dom, List.mem_cons_self _ _, e, hmem, hh⟩
    | none =>
      rw [hs] at h
      rcases ih h with ⟨d, hd, he⟩
      exact ⟨d, List.mem_cons_of_mem _ hd, he⟩

theorem find_by_role_scan_mem (role name : String)
    (dom : List (Int × DomElement)) (i : Int)
    (h : find_by_role_scan role name dom = some i) :
    ∃ e, (i, e) ∈ dom ∧ ElementHelper.is_hidden e = false := by
  induction dom with
  | nil => simp [find_by_role_scan] at h
  | cons p rest ih =>
    obtain ⟨j, e⟩ := p
    rw [find_by_role_scan] at h
    split_ifs at h with h1 h2 h3
    · rcases ih h with ⟨e', hmem, hh⟩
      exact ⟨e', List.mem_cons_of_mem _ hmem, hh⟩
    · rcases ih h with ⟨e', hmem, hh⟩
      exact ⟨e', List.mem_cons_of_mem _ hmem, hh⟩
    · rcases ih h with ⟨e', hmem, hh⟩
      exact ⟨e', List.mem_cons_of_mem _ hmem, hh⟩
    · obtain rfl : j = i := Option.some.inj h
      exact ⟨e, List.mem_cons_self _ _, by simpa using h1⟩

theorem find_by_role_not_hidden (snapshots : List (List (Int × DomElement)))
    (role name : String) (i : Int)
    (h : find_by_role snapshots role name = some i) :
    ∃ dom, dom ∈ snapshots ∧ ∃ e, (i, e) ∈ dom ∧
      ElementHelper.is_hidden e = false := by
  induction snapshots with
  | nil => simp [find_by_role] at h
  | cons dom rest ih =>
    rw [find_by_role] at h
    cases hs : find_by_role_scan role name dom with
    | some j =>
      rw [hs] at h
      obtain rfl : j = i := Option.some.inj h
      rcases find_by_role_scan_mem role name dom j hs with ⟨e, hmem, hh⟩
      exact ⟨dom, List.mem_cons_self _ _, e, hmem, hh⟩
    | none =>
      rw [hs] at h
      rcases ih h with ⟨d, hd, he⟩
      exact ⟨d, List.mem_cons_of_mem _ hd, he⟩

theorem find_by_selector_scan_mem (xpath : String)
    (dom : List (Int × DomElement)) (i : Int)
    (h : find_by_selector_scan xpath dom = some i) :
    ∃ e, (i, e) ∈ dom ∧ e.xpath = xpath := by
  induction dom with
  | nil => simp [find_by_selector_scan] at h
  | cons p rest ih =>
    obtain ⟨j, e⟩ := p
    rw [find_by_selector_scan] at h
    split_ifs at h with h1
    · obtain rfl : j = i := Option.some.inj h
      exact ⟨e, List.mem_cons_self _ _, h1⟩
    · rcases ih h with ⟨e', hmem, hx⟩
      exact ⟨e', List.mem_cons_of_mem _ hmem, hx⟩

/-- An element hidden by its explicit flag, sitting in the selector map. -/
def c5_hidden_div : DomElement := ⟨true, [], "div", "agree", "/html/body/div[1]"⟩

/-- C5 counterexample: the selector-based strategy returns a hidden element.  The
page's `querySelector` probe answers with the hidden element's xpath (CSS
selectors match hidden nodes) and `find_by_selector` sweeps the selector map for
that xpath with no hidden-element check, so the hidden element is the match. -/
theorem find_by_selector_returns_hidden :
    ElementHelper.is_hidden c5_hidden_div = true ∧
    find_by_selector [(fun _ => some "/html/body/div[1]", [((0 : Int), c5_hidden_div)])]
      "div.consent" = some 0 := by
  constructor
  · rfl
  · rfl

/-- C5 (amended): the text-based and role-based strategies each ignore hidden
elements — a match they return is never hidden in the sense of
`ElementHelper.is_hidden` — but the selector-based strategy performs no hidden
check: its match is just the first selector-map element whose xpath equals the
page's answer for the selector, whether hidden or not. -/
theorem hidden_filtering_by_strategy :
    (∀ snapshots search exact tag i,
      find_by_text snapshots search exact tag = some i →
      ∃ dom, dom ∈ snapshots ∧ ∃ e, (i, e) ∈ dom ∧
        ElementHelper.is_hidden e = false) ∧
    (∀ snapshots role name i,
      find_by_role snapshots role name = some i →
      ∃ dom, dom ∈ snapshots ∧ ∃ e, (i, e) ∈ dom ∧
        ElementHelper.is_hidden e = false) ∧
    (∀ query dom selector i,
      find_by_selector_once query dom selector = some i →
      ∃ xp e, query selector = some xp ∧ (i, e) ∈ dom ∧ e.xpath = xp) := by
  refine ⟨find_by_text_not_hidden, find_by_role_not_hidden, ?_⟩
  intro query dom selector i h
  unfold find_by_selector_once at h
  cases hq : query selector with
  | some xp =>
    rw [hq] at h
    rcases find_by_selector_scan_mem xp dom i h with ⟨e, hmem, hx⟩
    exact ⟨xp, e, rfl, hmem, hx⟩
  | none => rw [hq] at h; exact absurd h (by simp)

/-- A visible button carrying a role attribute, for the witness. -/
def c5_visible_btn : DomElement :=
  ⟨false, [("role", "button")], "button", "Submit", "/html/body/button[1]"⟩

theorem hidden_filtering_by_strategy_witness :
    (∃ dom, dom ∈ [[((1 : Int), c5_visible_btn)]] ∧ ∃ e,
      ((1 : Int), e) ∈ dom ∧ ElementHelper.is_hidden e = false) ∧
    (∃ dom, dom ∈ [[((2 : Int), c5_visible_btn)]] ∧ ∃ e,
      ((2 : Int), e) ∈ dom ∧ ElementHelper.is_hidden e = false) ∧
    (∃ xp e, (fun (_ : String) => some "/html/body/button[1]") "button.a" = some xp ∧
      ((3 : Int), e) ∈ [((3 : Int), c5_visible_btn)] ∧ e.xpath = xp) := by
  refine ⟨hidden_filtering_by_strategy.1 [[(1, c5_visible_btn)]] "sub" false "" 1
      (by decide),
    hidden_filtering_by_strategy.2.1 [[(2, c5_visible_btn)]] "Button" "" 2
      (by decide),
    hidden_filtering_by_strategy.2.2 (fun _ => some "/html/body/button[1]")
      [(3, c5_visible_btn)] "button.a" 3 (by decide)⟩

/-- Record used in the modification-test examples. -/
def c7_base : ElementData :=
  ⟨some "/html/body/div[1]", some "div", some true, [("id", "x"), ("data-test", "1")]⟩

/-- Same record with only the tag changed. -/
def c7_tag_changed : ElementData :=
  ⟨some "/html/body/div[1]", some "span", some true, [("id", "x"), ("data-test", "1")]⟩

/-- Same record with only the untracked `data-test` attribute changed. -/
def c7_data_changed : ElementData :=
  ⟨some "/html/body/div[1]", some "div", some true, [("id", "x"), ("data-test", "2")]⟩

/-- C7: the modification test classifies a pair of records as modified exactly
when the xpath, the tag, or the interactivity flag differs, or one of the tracked
attributes `id`/`class`/`name`/`type` differs; two records differing only in the
tag are modified, and two records differing only in an untracked `data-*`
attribute are unmodified. -/
theorem is_element_modified_char (old_element new_element : ElementData) :
    (is_element_modified old_element new_element = true ↔
      (old_element.xpath ≠ new_element.xpath ∨
        old_element.tag_name ≠ new_element.tag_name ∨
        old_element.is_interactive ≠ new_element.is_interactive ∨
        ∃ a ∈ important_attrs,
          dlookup a old_element.attributes ≠ dlookup a new_element.attributes)) ∧
    is_element_modified c7_base c7_tag_changed = true ∧
    is_element_modified c7_base c7_data_changed = false := by
  refine ⟨?_, by decide, by decide⟩
  unfold is_element_modified
  split_ifs with h1 h2 h3
  · simp [h1]
  · simp [h2]
  · simp [h3]
  · simp only [h1, h2, h3, false_or]
    simp [List.any_eq_true]

/-- C10: validating an empty cached set is safe and judges the cache invalid: the
sample list is empty, the validity ratio is 0 by the explicit guard (no division
by zero), and 0 < 0.7 so `validate_cache` returns false. -/
theorem validate_cache_empty (page : String → Bool) :
    select_validation_samples ([] : EDict) = [] ∧
    validity_fraction ([] : EDict) page = 0 ∧
    validate_cache ([] : EDict) page = false := by
  refine ⟨rfl, rfl, ?_⟩
  simp only [validate_cache, validity_fraction, select_validation_samples, keysOf,
    List.map_nil, List.isEmpty_nil, if_true, validation_threshold]
  norm_num

/-- C3: `validate_cache` returns true exactly when the validity fraction reaches
the 0.7 threshold (a ratio of exactly 0.7 therefore passes, the comparison being
`≥`); with a sample of size 3, exactly 2 valid samples give 2/3 < 0.7 hence
false, and 3 valid samples give 1 ≥ 0.7 hence true. -/
theorem validate_cache_threshold (cached : EDict) (page : String → Bool) :
    (validate_cache cached page = true ↔
      validation_threshold ≤ validity_fraction cached page) ∧
    ((select_validation_samples cached).length = 3 →
      (valid_count cached page = 2 → validate_cache cached page = false) ∧
      (valid_count cached page = 3 → validate_cache cached page = true)) := by
  constructor
  · simp [validate_cache]
  · intro h3
    have hie : (select_validation_samples cached).isEmpty = false := by
      cases hS : select_validation_samples cached with
      | nil => rw [hS] at h3; simp at h3
      | cons a l => rfl
    constructor
    · intro h2
      have hr : validity_fraction cached page = 2 / 3 := by
        simp only [validity_fraction, hie, Bool.false_eq_true, if_false, h2, h3]
        norm_num
      simp only [validate_cache, hr, validation_threshold]
      norm_num
    · intro hcnt
      have hr : validity_fraction cached page = 1 := by
        simp only [validity_fraction, hie, Bool.false_eq_true, if_false, hcnt, h3]
        norm_num
      simp only [validate_cache, hr, validation_threshold]
      norm_num

/-- Three cached records with distinct ids, for the validator witness. -/
def c3_cached : EDict :=
  [("0", ⟨some "/a", some "button", some true, [("id", "a")]⟩),
   ("1", ⟨some "/b", some "button", some true, [("id", "b")]⟩),
   ("2", ⟨some "/c", some "button", some true, [("id", "c")]⟩)]

/-- A live page on which only the first two sampled selectors resolve. -/
def c3_page_two (s : String) : Bool := s = "#a" || s = "#b"

theorem validate_cache_threshold_witness :
    validate_cache c3_cached c3_page_two = false ∧
    validate_cache c3_cached (fun _ => true) = true := by
  refine ⟨((validate_cache_threshold c3_cached c3_page_two).2 (by decide)).1
      (by decide),
    ((validate_cache_threshold c3_cached (fun _ => true)).2 (by decide)).2
      (by decide)⟩

theorem charListLt_irrefl (l : List Char) : charListLt l l = false := by
  induction l with
  | nil => rfl
  | cons c rest ih => simp [charListLt, lt_irrefl, ih]

theorem charListLt_asymm : ∀ (a b : List Char),
    charListLt a b = true → charListLt b a = false := by
  intro a
  induction a with
  | nil =>
    intro b h
    cases b with
    | nil => simp [charListLt] at h
    | cons y ys => rfl
  | cons x xs ih =>
    intro b h
    cases b with
    | nil => simp [charListLt] at h
    | cons y ys =>
      simp only [charListLt] at h ⊢
      by_cases hxy : x < y
      · have hyx : ¬ y < x := lt_asymm hxy
        simp [hxy, hyx]
      · by_cases hyx : y < x
        · simp [hxy, hyx] at h
        · simp only [hxy, hyx, if_false] at h ⊢
          exact ih ys h

theorem charListLt_trans : ∀ (a b c : List Char),
    charListLt a b = true → charListLt b c = true → charListLt a c = true := by
  intro a
  induction a with
  | nil =>
    intro b c hab hbc
    cases b with
    | nil => simp [charListLt] at hab
    | cons y ys =>
      cases c with
      | nil => simp [charListLt] at hbc
      | cons z zs => rfl
  | cons x xs ih =>
    intro b c hab hbc
    cases b with
    | nil => simp [charListLt] at hab
    | cons y ys =>
      cases c with
      | nil => simp [charListLt] at hbc
      | cons z zs =>
        simp only [charListLt] at hab hbc ⊢
        by_cases hxy : x < y
        · by_cases hyz : y < z
          · simp [lt_trans hxy hyz]
          · by_cases hzy : z < y
            · simp [hyz, hzy] at hbc
            · have hyez : y = z := le_antisymm (not_lt.mp hzy) (not_lt.mp hyz)
              subst hyez
              simp [hxy]
        · by_cases hyx : y < x
          · simp [hxy, hyx] at hab
          · have hxey : x = y := le_antisymm (not_lt.mp hyx) (not_lt.mp hxy)
            subst hxey
            simp only [hxy, if_false] at hab
            by_cases hxz : x < z
            · simp [hxz]
            · by_cases hzx : z < x
              · simp [hxz, hzx] at hbc
              · have hxez : x = z := le_antisymm (not_lt.mp hzx) (not_lt.mp hxz)
                subst hxez
                simp only [hxz, if_false] at hbc ⊢
                exact ih ys zs hab hbc

theorem charListLt_eq_of_not : ∀ (a b : List Char),
    charListLt a b = false → charListLt b a = false → a = b := by
  intro a
  induction a with
  | nil =>
    intro b h1 h2
    cases b with
    | nil => rfl
    | cons y ys => simp [charListLt] at h1
  | cons x xs ih =>
    intro b h1 h2
    cases b with
    | nil => simp [charListLt] at h2
    | cons y ys =>
      simp only [charListLt] at h1 h2
      by_cases hxy : x < y
      · simp [hxy] at h1
      · by_cases hyx : y < x
        · simp [hyx] at h2
        · have hxey : x = y := le_antisymm (not_lt.mp hyx) (not_lt.mp hxy)
          subst hxey
          simp only [hxy, lt_irrefl, if_false] at h1 h2
          rw [ih ys h1 h2]

theorem strLt_asymm (a b : String) (h : strLt a b = true) : strLt b a = false :=
  charListLt_asymm a.data b.data h

theorem strLt_trans (a b c : String) (h1 : strLt a b = true)
    (h2 : strLt b c = true) : strLt a c = true :=
  charListLt_trans a.data b.data c.data h1 h2

theorem strLt_eq_of_not (a b : String) (h1 : strLt a b = false)
    (h2 : strLt b a = false) : a = b := by
  exact String.ext (charListLt_eq_of_not a.data b.data h1 h2)

theorem strLt_le_trans (a b c : String) (h1 : strLt b a = false)
    (h2 : strLt c b = false) : strLt c a = false := by
  cases hbc : strLt b c with
  | true =>
    cases hca : strLt c a with
    | false => rfl
    | true => exact absurd (strLt_trans b c a hbc hca) (by simp [h1])
  | false =>
    have hcb : c = b := strLt_eq_of_not c b h2 hbc
    rw [hcb]
    exact h1

instance : IsTrans (String × String) pairLE := by
  constructor
  intro x y z hxy hyz
  rcases hxy with h1 | ⟨he1, hle1⟩
  · rcases hyz with h2 | ⟨he2, hle2⟩
    · exact Or.inl (strLt_trans _ _ _ h1 h2)
    · exact Or.inl (he2 ▸ h1)
  · rcases hyz with h2 | ⟨he2, hle2⟩
    · exact Or.inl (he1 ▸ h2)
    · exact Or.inr ⟨he1.trans he2, strLt_le_trans x.2 y.2 z.2 hle1 hle2⟩

instance : IsAntisymm (String × String) pairLE := by
  constructor
  intro x y hxy hyx
  rcases hxy with h1 | ⟨he1, hle1⟩
  · rcases hyx with h2 | ⟨he2, hle2⟩
    · exact absurd h2 (by simp [strLt_asymm _ _ h1])
    · exact absurd h1 (by simp [he2, charListLt_irrefl, strLt])
  · rcases hyx with h2 | ⟨he2, hle2⟩
    · exact absurd h2 (by simp [he1, charListLt_irrefl, strLt])
    · have hv : x.2 = y.2 := strLt_eq_of_not x.2 y.2 hle2 hle1
      exact Prod.ext he1 hv

instance : IsTotal (String × String) pairLE := by
  constructor
  intro x y
  cases h1 : strLt x.1 y.1 with
  | true => exact Or.inl (Or.inl h1)
  | false =>
    cases h2 : strLt y.1 x.1 with
    | true => exact Or.inr (Or.inl h2)
    | false =>
      have he : x.1 = y.1 := strLt_eq_of_not x.1 y.1 h1 h2
      cases h3 : strLt y.2 x.2 with
      | false => exact Or.inl (Or.inr ⟨he, h3⟩)
      | true => exact Or.inr (Or.inr ⟨he.symm, strLt_asymm _ _ h3⟩)

/-- C6: cache-key generation is a pure function of `(url, params)` and invariant
under the order the parameter pairs are supplied: permuted parameter dicts yield
the identical key, the pairs being re-joined as `k=v` sorted lexicographically. -/
theorem generate_cache_key_param_order (url : String)
    (p1 p2 : List (String × String)) (h : p1.Perm p2) :
    generate_cache_key url p1 = generate_cache_key url p2 := by
  by_cases h1 : p1 = []
  · subst h1
    rw [List.Perm.eq_nil h.symm]
  · have h2 : p2 ≠ [] := by
      intro hh
      exact h1 (List.Perm.eq_nil (hh ▸ h))
    have he1 : p1.isEmpty = false := by
      cases p1 with
      | nil => exact absurd rfl h1
      | cons a l => rfl
    have he2 : p2.isEmpty = false := by
      cases p2 with
      | nil => exact absurd rfl h2
      | cons a l => rfl
    have hsort : sortedParams p1 = sortedParams p2 :=
      List.eq_of_perm_of_sorted
        ((List.perm_insertionSort pairLE p1).trans
          (h.trans (List.perm_insertionSort pairLE p2).symm))
        (List.sorted_insertionSort pairLE p1)
        (List.sorted_insertionSort pairLE p2)
    simp only [generate_cache_key, he1, he2, Bool.false_eq_true, if_false, hsort]

theorem generate_cache_key_param_order_witness :
    generate_cache_key "https://x.com/a" [("b", "1"), ("a", "2")] =
      generate_cache_key "https://x.com/a" [("a", "2"), ("b", "1")] :=
  generate_cache_key_param_order "https://x.com/a" _ _ (by decide)

theorem hasKey_iff_mem_keysOf {α β : Type} [DecidableEq α] (k : α)
    (d : List (α × β)) : hasKey k d = true ↔ k ∈ keysOf d := by
  simp [hasKey, keysOf, List.any_eq_true, List.mem_map]

theorem hasKey_eq_false_iff {α β : Type} [DecidableEq α] (k : α)
    (d : List (α × β)) : hasKey k d = false ↔ k ∉ keysOf d := by
  rw [← hasKey_iff_mem_keysOf]
  cases hasKey k d <;> simp

theorem dlookup_isSome_iff_mem_keysOf {α β : Type} [DecidableEq α] (k : α)
    (d : List (α × β)) : (dlookup k d).isSome ↔ k ∈ keysOf d := by
  constructor
  · intro h
    exact (hasKey_iff_mem_keysOf k d).mp (hasKey_of_dlookup_isSome k d h)
  · intro h
    exact dlookup_isSome_of_hasKey k d ((hasKey_iff_mem_keysOf k d).mpr h)

theorem dlookup_foldl_overwrite (src : EDict) (L : List String) (d : EDict)
    (k : String) :
    dlookup k (L.foldl (overwriteFrom src) d) =
      if k ∈ L ∧ (dlookup k src).isSome then dlookup k src else dlookup k d := by
  induction L generalizing d with
  | nil => simp
  | cons j rest ih =>
    rw [List.foldl_cons, ih]
    by_cases hmem : k ∈ rest ∧ (dlookup k src).isSome
    · rw [if_pos hmem, if_pos ⟨List.mem_cons_of_mem j hmem.1, hmem.2⟩]
    · rw [if_neg hmem]
      by_cases hj : j = k
      · subst hj
        cases hsrc : dlookup j src with
        | some v =>
          simp only [overwriteFrom, hsrc]
          rw [dlookup_dinsert, if_pos rfl,
            if_pos ⟨List.mem_cons_self j rest, by simp⟩]
        | none =>
          simp only [overwriteFrom, hsrc]
          rw [if_neg (by simp [hsrc])]
      · have hmem2 : ¬ (k ∈ j :: rest ∧ (dlookup k src).isSome) := by
          rintro ⟨hk, hs⟩
          rcases List.mem_cons.mp hk with h | h
          · exact hj h.symm
          · exact hmem ⟨h, hs⟩
        rw [if_neg hmem2]
        cases hsrc : dlookup j src with
        | some v =>
          simp only [overwriteFrom, hsrc]
          rw [dlookup_dinsert, if_neg (fun hh => hj hh.symm)]
        | none => simp only [overwriteFrom, hsrc]

theorem dlookup_foldl_erase (L : List String) (d : EDict) (k : String) :
    dlookup k (L.foldl (fun d j => derase j d) d) =
      if k ∈ L then none else dlookup k d := by
  induction L generalizing d with
  | nil => simp
  | cons j rest ih =>
    rw [List.foldl_cons, ih]
    by_cases hr : k ∈ rest
    · rw [if_pos hr, if_pos (List.mem_cons_of_mem j hr)]
    · rw [if_neg hr, dlookup_derase]
      by_cases hj : k = j
      · rw [if_pos hj, if_pos (hj ▸ List.mem_cons_self j rest)]
      · rw [if_neg hj, if_neg (by simp [List.mem_cons, hj, hr])]

theorem mem_compute_diff_modified_isSome (old_elements new_elements : EDict)
    (k : String) (hm : k ∈ (compute_diff old_elements new_elements).2.1) :
    (dlookup k new_elements).isSome := by
  have hp := (List.mem_filter.mp hm).2
  cases hn : dlookup k new_elements with
  | some v => simp
  | none =>
    cases ho : dlookup k old_elements <;> simp only [ho, hn] at hp <;> simp at hp

theorem mem_compute_diff_added_isSome (old_elements new_elements : EDict)
    (k : String) (ha : k ∈ (compute_diff old_elements new_elements).1) :
    (dlookup k new_elements).isSome := by
  have hp := (List.mem_filter.mp ha).1
  exact (dlookup_isSome_iff_mem_keysOf k new_elements).mpr hp

theorem merge_diff_lookup (old_elements new_elements : EDict) (k : String) :
    dlookup k (merge_diff old_elements new_elements) =
      if k ∈ (compute_diff old_elements new_elements).2.2 then none
      else if k ∈ (compute_diff old_elements new_elements).1 ∨
          k ∈ (compute_diff old_elements new_elements).2.1 then
        dlookup k new_elements
      else dlookup k old_elements := by
  simp only [merge_diff]
  rw [dlookup_foldl_erase, dlookup_foldl_overwrite, dlookup_foldl_overwrite]
  by_cases hrem : k ∈ (compute_diff old_elements new_elements).2.2
  · rw [if_pos hrem, if_pos hrem]
  · rw [if_neg hrem, if_neg hrem]
    by_cases hmod : k ∈ (compute_diff old_elements new_elements).2.1
    · rw [if_pos ⟨hmod, mem_compute_diff_modified_isSome _ _ k hmod⟩,
        if_pos (Or.inr hmod)]
    · rw [if_neg (fun hh => hmod hh.1)]
      by_cases hadd : k ∈ (compute_diff old_elements new_elements).1
      · rw [if_pos ⟨hadd, mem_compute_diff_added_isSome _ _ k hadd⟩,
          if_pos (Or.inl hadd)]
      · rw [if_neg (fun hh => hadd hh.1), if_neg (by
          rintro (h | h)
          · exact hadd h
          · exact hmod h)]

/-- Record X of the diff example (unchanged between old and fresh). -/
def c1_X : ElementData := ⟨some "/a", some "div", some true, []⟩

/-- Record Y of the diff example (present only in old). -/
def c1_Y : ElementData := ⟨some "/b", some "span", some false, []⟩

/-- Record Z of the diff example (present only in fresh). -/
def c1_Z : ElementData := ⟨some "/c", some "a", some true, []⟩

/-- C1: the differ classifies `added = keys(fresh) \ keys(old)` and
`removed = keys(old) \ keys(fresh)`, and the merged set returned (and persisted)
by the update equals the cached set with added and modified keys overwritten by
the fresh entries and removed keys deleted; for `old = {a:X, b:Y}` and
`fresh = {a:X, c:Z}` this gives `added={c}`, `modified={}`, `removed={b}` and
merged set `{a:X, c:Z}`. -/
theorem differ_update_char (old_elements new_elements : EDict) (k : String) :
    (k ∈ (compute_diff old_elements new_elements).1 ↔
      k ∈ keysOf new_elements ∧ k ∉ keysOf old_elements) ∧
    (k ∈ (compute_diff old_elements new_elements).2.2 ↔
      k ∈ keysOf old_elements ∧ k ∉ keysOf new_elements) ∧
    (dlookup k (merge_diff old_elements new_elements) =
      if k ∈ (compute_diff old_elements new_elements).2.2 then none
      else if k ∈ (compute_diff old_elements new_elements).1 ∨
          k ∈ (compute_diff old_elements new_elements).2.1 then
        dlookup k new_elements
      else dlookup k old_elements) ∧
    (∀ (env : ManagerEnv) (st : CacheState) (url : String),
      (update_cache_with_diff env st url old_elements).1 =
        merge_diff old_elements env.fresh ∧
      dlookup (generate_cache_key url (extract_url_params url))
        (update_cache_with_diff env st url old_elements).2.mem =
        some (merge_diff old_elements env.fresh)) ∧
    compute_diff [("a", c1_X), ("b", c1_Y)] [("a", c1_X), ("c", c1_Z)] =
      (["c"], [], ["b"]) ∧
    merge_diff [("a", c1_X), ("b", c1_Y)] [("a", c1_X), ("c", c1_Z)] =
      [("a", c1_X), ("c", c1_Z)] := by
  refine ⟨?_, ?_, merge_diff_lookup old_elements new_elements k, ?_, by decide,
    by decide⟩
  · simp only [compute_diff, List.mem_filter, Bool.not_eq_eq_eq_not,
      Bool.not_true, hasKey_eq_false_iff]
  · simp only [compute_diff, List.mem_filter, Bool.not_eq_eq_eq_not,
      Bool.not_true, hasKey_eq_false_iff]
  · intro env st url
    constructor
    · rfl
    · simp only [update_cache_with_diff, store_elements]
      rw [dlookup_dinsert, if_pos rfl]

/-- C8: the store's get never raises — a key present in neither tier yields the
empty set, and a key whose persisted record is malformed (a `json.load` failure,
modelled as `none` in the file tier) is treated as cache-absent: empty set, no
state change, no exception. -/
theorem get_elements_missing_or_corrupt (st : CacheState) (url : String)
    (params : List (String × String)) :
    (dlookup (generate_cache_key url params) st.mem = none →
      dlookup (generate_cache_key url params) st.fileStore = none →
      get_elements st url params = ([], st)) ∧
    (dlookup (generate_cache_key url params) st.mem = none →
      dlookup (generate_cache_key url params) st.fileStore = some none →
      get_elements st url params = ([], st)) := by
  constructor <;> intro h1 h2 <;> simp [get_elements, h1, h2]

/-- A cache state with no entry at all for the key `u`. -/
def c8_empty_state : CacheState := ⟨[], [], []⟩

/-- A cache state whose only durable record for `u` is corrupt. -/
def c8_corrupt_state : CacheState := ⟨[], [], [("u", none)]⟩

theorem get_elements_missing_or_corrupt_witness :
    get_elements c8_empty_state "u" [] = ([], c8_empty_state) ∧
    get_elements c8_corrupt_state "u" [] = ([], c8_corrupt_state) :=
  ⟨(get_elements_missing_or_corrupt c8_empty_state "u" []).1 rfl rfl,
    (get_elements_missing_or_corrupt c8_corrupt_state "u" []).2 rfl rfl⟩

theorem get_elements_preserves_meta (st : CacheState) (url : String)
    (params : List (String × String)) :
    (get_elements st url params).2.metadata = st.metadata ∧
    (get_elements st url params).2.fileStore = st.fileStore := by
  cases h1 : dlookup (generate_cache_key url params) st.mem with
  | some e => simp [get_elements, h1]
  | none =>
    cases h2 : dlookup (generate_cache_key url params) st.fileStore with
    | some oe =>
      cases oe with
      | some e => simp [get_elements, h1, h2]
      | none => simp [get_elements, h1, h2]
    | none => simp [get_elements, h1, h2]

theorem get_elements_idem (st : CacheState) (url : String)
    (params : List (String × String)) :
    get_elements (get_elements st url params).2 url params =
      get_elements st url params := by
  cases h1 : dlookup (generate_cache_key url params) st.mem with
  | some e => simp [get_elements, h1]
  | none =>
    cases h2 : dlookup (generate_cache_key url params) st.fileStore with
    | some oe =>
      cases oe with
      | some e => simp [get_elements, h1, h2, dlookup_dinsert]
      | none => simp [get_elements, h1, h2]
    | none => simp [get_elements, h1, h2]

/-- C2: with `forceRefresh = false`, a metadata entry within TTL, a non-empty
cached set and a passing validation, `getElements` returns the cached set
unchanged, the metadata (timestamp and version) and the durable tier are
identical before and after the call, and an immediately repeated call is a
fixpoint: it returns the identical set and state, so the version does not
increase. -/
theorem get_elements_with_cache_idem (env : ManagerEnv) (url : String)
    (st : CacheState) (m : CacheMeta)
    (hm : get_cache_info st url (extract_url_params env.currentUrl) = some m)
    (httl : env.now - m.timestamp ≤ cache_ttl)
    (hne : (get_elements st url (extract_url_params env.currentUrl)).1.isEmpty
      = false)
    (hval : validate_cache
      (get_elements st url (extract_url_params env.currentUrl)).1 env.page
      = true) :
    get_elements_with_cache env url false st =
      get_elements st url (extract_url_params env.currentUrl) ∧
    (get_elements_with_cache env url false st).2.metadata = st.metadata ∧
    (get_elements_with_cache env url false st).2.fileStore = st.fileStore ∧
    get_elements_with_cache env url false
      (get_elements_with_cache env url false st).2 =
      get_elements_with_cache env url false st := by
  have hsr : should_refresh_cache st url (extract_url_params env.currentUrl)
      env.now = false := by
    simp only [should_refresh_cache, hm]
    rw [decide_eq_false_iff_not]
    exact not_lt.mpr httl
  have hfirst : get_elements_with_cache env url false st =
      get_elements st url (extract_url_params env.currentUrl) := by
    simp only [get_elements_with_cache, hsr, Bool.or_self, Bool.false_eq_true,
      if_false, hne, hval, if_true]
  have hpres := get_elements_preserves_meta st url (extract_url_params env.currentUrl)
  refine ⟨hfirst, by rw [hfirst]; exact hpres.1, by rw [hfirst]; exact hpres.2, ?_⟩
  rw [hfirst]
  have hm2 : get_cache_info
      (get_elements st url (extract_url_params env.currentUrl)).2 url
      (extract_url_params env.currentUrl) = some m := by
    simp only [get_cache_info] at hm ⊢
    rw [hpres.1]
    exact hm
  have hsr2 : should_refresh_cache
      (get_elements st url (extract_url_params env.currentUrl)).2 url
      (extract_url_params env.currentUrl) env.now = false := by
    simp only [should_refresh_cache, hm2]
    rw [decide_eq_false_iff_not]
    exact not_lt.mpr httl
  have hidem := get_elements_idem st url (extract_url_params env.currentUrl)
  simp only [get_elements_with_cache, hsr2, Bool.or_self, Bool.false_eq_true,
    if_false, hidem, hne, hval, if_true]

/-- The single cached record of the idempotence witness. -/
def c2_elems : EDict := [("0", ⟨some "/a", some "div", some true, [("id", "btn")]⟩)]

/-- Cache state holding `c2_elems` for key `u` in all tiers, version 1. -/
def c2_state : CacheState :=
  ⟨[("u", c2_elems)], [("u", ⟨"u", 0, 1, 1⟩)], [("u", some c2_elems)]⟩

/-- Manager environment at time 0 on page `u` whose live page resolves `#btn`. -/
def c2_env : ManagerEnv := ⟨0, "u", [], fun s => decide (s = "#btn")⟩

theorem get_elements_with_cache_idem_witness :
    get_elements_with_cache c2_env "u" false c2_state =
      get_elements c2_state "u" (extract_url_params c2_env.currentUrl) ∧
    (get_elements_with_cache c2_env "u" false c2_state).2.metadata =
      c2_state.metadata ∧
    (get_elements_with_cache c2_env "u" false c2_state).2.fileStore =
      c2_state.fileStore ∧
    get_elements_with_cache c2_env "u" false
      (get_elements_with_cache c2_env "u" false c2_state).2 =
      get_elements_with_cache c2_env "u" false c2_state := by
  apply get_elements_with_cache_idem c2_env "u" c2_state ⟨"u", 0, 1, 1⟩ rfl
  · norm_num [c2_env, cache_ttl]
  · decide
  · have h0 : (get_elements c2_state "u" (extract_url_params c2_env.currentUrl)).1
        = c2_elems := by decide
    have h1 : valid_count c2_elems c2_env.page = 1 := by decide
    have h2 : select_validation_samples c2_elems = ["0"] := by decide
    rw [h0]
    simp only [validate_cache, validity_fraction, h1, h2]
    norm_num [validation_threshold]
